import Mathlib

/-!
Verification of the NEAR zk light client core (`nearx/src/variables.rs`,
`src/erasure.rs`) against its natural-language specification.

Bytes are modelled as `Nat` values (each meaningful value is below 256),
byte strings as `List Nat`, and machine integers as `Nat` with explicit
`% 2 ^ 64` where wrap-around matters.  The SHA-256 compression used by the
circuit builder (`curta_sha256`, an external plonky2x gadget) and the borsh
serialisation used by `CryptoHash::hash_borsh` (external `near-primitives`
crate) are kept abstract as function parameters: every claim below is about
the byte layouts and data flow of this repository, never about the internals
of those external primitives.
-/

namespace NearLC

/-- Little-endian byte encoding of a `u64`, mirroring Rust's
`u64::to_le_bytes`: always exactly 8 bytes, least significant first. -/
def u64LeBytes (n : Nat) : List Nat :=
  (List.range 8).map fun i => n / 256 ^ i % 256

/-- `Vec::resize(n, d)` semantics: truncate when longer than `n`, pad with
`d` when shorter. -/
def resizeList (l : List α) (n : Nat) (d : α) : List α :=
  l.take n ++ List.replicate (n - l.length) d

/-- Collect a list of options into an option of a list; `none` models a
propagated panic or missing element. -/
def collectSome : List (Option α) → Option (List α)
  | [] => some []
  | none :: _ => none
  | some a :: rest => (collectSome rest).map (fun l => a :: l)

/-- The inner-lite header, from `HeaderInnerVariable` /
`BlockHeaderInnerLiteView`: two `u64` fields and six 32-byte hashes. -/
structure HeaderInner where
  height : Nat
  epoch_id : List Nat
  next_epoch_id : List Nat
  prev_state_root : List Nat
  outcome_root : List Nat
  timestamp : Nat
  next_bp_hash : List Nat
  block_merkle_root : List Nat
deriving DecidableEq

/-- Well-formedness of a `HeaderInner` value: every hash field is a 32-byte
value, as guaranteed by the `CryptoHashVariable = Bytes32Variable` type. -/
def WfInner (i : HeaderInner) : Prop :=
  i.epoch_id.length = 32 ∧ i.next_epoch_id.length = 32 ∧
  i.prev_state_root.length = 32 ∧ i.outcome_root.length = 32 ∧
  i.next_bp_hash.length = 32 ∧ i.block_merkle_root.length = 32

instance (i : HeaderInner) : Decidable (WfInner i) := by
  unfold WfInner; infer_instance

/-- `INNER_ENCODED_LEN` from `variables.rs`. -/
def INNER_ENCODED_LEN : Nat := 208

/-- The canonical (protocol) encoding of the inner header, from the
`EncodeInner` hint in `variables.rs`: the eight fields concatenated in
declaration order, `u64` fields as 8-byte little-endian. -/
def encodeInner (i : HeaderInner) : List Nat :=
  u64LeBytes i.height ++ i.epoch_id ++ i.next_epoch_id ++
  i.prev_state_root ++ i.outcome_root ++ u64LeBytes i.timestamp ++
  i.next_bp_hash ++ i.block_merkle_root

/-- The header value, from `HeaderVariable`. -/
structure Header where
  prev_block_hash : List Nat
  inner_rest_hash : List Nat
  inner_lite : HeaderInner
deriving DecidableEq

/-- `CircuitBuilder::curta_sha256_pair`: hash the concatenation of two
digests with the 256-bit hash `H`. -/
def sha256Pair (H : List Nat → List Nat) (a b : List Nat) : List Nat :=
  H (a ++ b)

/-- `HeaderInnerVariable::hash`: hash the canonical inner encoding. -/
def headerInnerHash (H : List Nat → List Nat) (i : HeaderInner) : List Nat :=
  H (encodeInner i)

/-- `HeaderVariable::hash`: the canonical header hash built from the inner
hash, `inner_rest_hash` and `prev_block_hash`. -/
def headerHash (H : List Nat → List Nat) (h : Header) : List Nat :=
  sha256Pair H (sha256Pair H (headerInnerHash H h.inner_lite) h.inner_rest_hash)
    h.prev_block_hash

/-- The chain-observed inner-lite view, from `BlockHeaderInnerLiteView`:
like `HeaderInner` but carrying both `timestamp` and `timestamp_nanosec`. -/
structure BlockHeaderInnerLiteView where
  height : Nat
  epoch_id : List Nat
  next_epoch_id : List Nat
  prev_state_root : List Nat
  outcome_root : List Nat
  timestamp : Nat
  timestamp_nanosec : Nat
  next_bp_hash : List Nat
  block_merkle_root : List Nat
deriving DecidableEq

/-- `From<BlockHeaderInnerLiteView> for HeaderInnerVariableValue`: fields are
copied, except `timestamp`, which prefers the view's `timestamp` when it is
positive and otherwise falls back to `timestamp_nanosec`. -/
def headerInnerFromView (v : BlockHeaderInnerLiteView) : HeaderInner where
  height := v.height
  epoch_id := v.epoch_id
  next_epoch_id := v.next_epoch_id
  prev_state_root := v.prev_state_root
  outcome_root := v.outcome_root
  timestamp := if v.timestamp > 0 then v.timestamp else v.timestamp_nanosec
  next_bp_hash := v.next_bp_hash
  block_merkle_root := v.block_merkle_root

/-- The `BuildEndorsement` hint: one zero byte, then the next block hash,
then the little-endian bytes of `next_block_height + 2`. -/
def buildEndorsement (nextBlockHash : List Nat) (nextBlockHeight : Nat) :
    List Nat :=
  0 :: (nextBlockHash ++ u64LeBytes (nextBlockHeight + 2))

/-- Modelled from the spec: `NUM_BLOCK_PRODUCER_SEATS` lives in the protocol
crate's `config`, which is part of this repository but not under `src/`; the
spec fixes it only as "a protocol constant (seat count)".  The proofs below
never depend on its concrete value. -/
def NUM_BLOCK_PRODUCER_SEATS : Nat := 50

/-- Modelled from the spec: `ACCOUNT_DATA_SEPARATOR`, the protocol-reserved
padding byte, lives in the protocol crate's `config` outside `src/`; the spec
fixes it only as "a single reserved separator byte guaranteed not to appear
in a legal identifier".  The proofs below depend only on that guarantee. -/
def ACCOUNT_DATA_SEPARATOR : Nat := 44

/-- `AccountId::MAX_LEN` from the external `near-account-id` crate: the
fixed maximum identifier width (64 bytes). -/
def ACCOUNT_ID_MAX_LEN : Nat := 64

/-- `pad_account_bytes`: `Vec::resize` the identifier bytes to the fixed
width with the reserved separator byte (truncating when longer). -/
def pad_account_bytes (accountId : List Nat) : List Nat :=
  resizeList accountId ACCOUNT_ID_MAX_LEN ACCOUNT_DATA_SEPARATOR

/-- Outcome of host-side code that can `panic!`-style abort through
`Result::expect`: either a value or an abort.  There is no error-result
constructor because the corresponding Rust functions return plain values
and abort on failure. -/
inductive DecodeOutcome (α : Type) where
  | ok (val : α)
  | panicked
deriving DecidableEq

/-- State of the UTF-8 validation automaton: the number of continuation
bytes still expected and the admissible range of the next byte. -/
structure Utf8State where
  need : Nat
  lo : Nat
  hi : Nat

/-- Transition on an initial byte of a UTF-8 sequence (RFC 3629 table):
ASCII stands alone; `0xC2..=0xDF` open a 2-byte sequence; `0xE0..=0xEF`
open 3-byte sequences with the overlong (`0xE0`) and surrogate (`0xED`)
restrictions on the second byte; `0xF0..=0xF4` open 4-byte sequences with
the overlong (`0xF0`) and out-of-range (`0xF4`) restrictions; anything
else is invalid. -/
def utf8Start (b : Nat) : Option Utf8State :=
  if b ≤ 127 then some ⟨0, 0, 0⟩
  else if 194 ≤ b && b ≤ 223 then some ⟨1, 128, 191⟩
  else if b = 224 then some ⟨2, 160, 191⟩
  else if (225 ≤ b && b ≤ 236) || b = 238 || b = 239 then some ⟨2, 128, 191⟩
  else if b = 237 then some ⟨2, 128, 159⟩
  else if b = 240 then some ⟨3, 144, 191⟩
  else if 241 ≤ b && b ≤ 243 then some ⟨3, 128, 191⟩
  else if b = 244 then some ⟨3, 128, 143⟩
  else none

/-- Run the UTF-8 automaton: with no pending continuation bytes, classify
the next initial byte; otherwise the next byte must lie in the admissible
range and further continuation bytes take the generic `0x80..=0xBF` range. -/
def validUtf8From : Nat → Nat → Nat → List Nat → Bool
  | 0, _, _, [] => true
  | 0, _, _, b :: rest =>
    match utf8Start b with
    | some s => validUtf8From s.need s.lo s.hi rest
    | none => false
  | _ + 1, _, _, [] => false
  | need + 1, lo, hi, b :: rest =>
    if lo ≤ b && b ≤ hi then validUtf8From need 128 191 rest else false

/-- UTF-8 validity of a byte sequence, the check performed by
`String::from_utf8` (external std function, standard semantics). -/
def validUtf8 (l : List Nat) : Bool := validUtf8From 0 0 0 l

/-- Modelled from the spec: a byte legal inside an account identifier.
`AccountId::from_str` lives in the external `near-account-id` crate; the
spec fixes legal identifiers as bounded ASCII over a character set that
excludes the reserved separator byte.  Lowercase letters, digits, and the
punctuation accepted by the chain; the separator byte 44 is not legal. -/
def isAllowedAccountByte (b : Nat) : Bool :=
  (97 ≤ b && b ≤ 122) || (48 ≤ b && b ≤ 57) || b == 45 || b == 95 || b == 46

/-- Modelled from the spec: a legal account identifier is a nonempty
sequence of at most `ACCOUNT_ID_MAX_LEN` allowed bytes. -/
def isLegalAccountId (l : List Nat) : Bool :=
  decide (l ≠ []) && decide (l.length ≤ ACCOUNT_ID_MAX_LEN) &&
    l.all isAllowedAccountByte

/-- The truncation step of `normalise_account_id`: the bytes before the
first separator byte (`split(..).collect_vec()[0]`). -/
def unpadAccountBytes (buf : List Nat) : List Nat :=
  buf.takeWhile fun b => decide (b ≠ ACCOUNT_DATA_SEPARATOR)

/-- `normalise_account_id`: truncate at the first separator byte, then
`String::from_utf8(..).expect(..)` and `str::parse(..).expect(..)` — both
failure paths abort (`DecodeOutcome.panicked`), neither returns an error. -/
def normalise_account_id (buf : List Nat) : DecodeOutcome (List Nat) :=
  let t := unpadAccountBytes buf
  if validUtf8 t then
    if isLegalAccountId t then .ok t else .panicked
  else .panicked

/-- A chain-observed validator record (`ValidatorStake` /
`ValidatorStakeView::V1`): unpadded account-id bytes, the 32-byte ed25519
public key, and the 128-bit stake.  The repository's conversion assumes
ed25519 keys (`unwrap_as_ed25519`), so the key is carried as raw bytes. -/
structure ValidatorStake where
  account_id : List Nat
  public_key : List Nat
  stake : Nat
deriving DecidableEq

/-- The in-circuit seat value (`ValidatorStakeVariableValue`): the account
id in canonical padded form, the public key, and the stake. -/
structure ValidatorStakeValue where
  account_id : List Nat
  public_key : List Nat
  stake : Nat
deriving DecidableEq

/-- `Default for ValidatorStakeVariableValue`: the empty-seat placeholder —
zeroed account id, zeroed key (`CompressedEdwardsY::default`), zero stake. -/
def defaultValidator : ValidatorStakeValue where
  account_id := List.replicate ACCOUNT_ID_MAX_LEN 0
  public_key := List.replicate 32 0
  stake := 0

/-- `From<ValidatorStake> for ValidatorStakeVariableValue`: pad the account
id to the fixed width, keep key and stake. -/
def validatorStakeToValue (vs : ValidatorStake) : ValidatorStakeValue where
  account_id := pad_account_bytes vs.account_id
  public_key := vs.public_key
  stake := vs.stake

/-- `From<ValidatorStakeVariableValue> for ValidatorStakeView`: unpad and
parse the account id (aborting on failure, like the Rust `expect` calls),
keep key and stake. -/
def toValidatorStakeView (v : ValidatorStakeValue) : Option ValidatorStake :=
  match normalise_account_id v.account_id with
  | .ok accountId => some ⟨accountId, v.public_key, v.stake⟩
  | .panicked => none

/-- `bps_to_variable`: take at most `NUM_BLOCK_PRODUCER_SEATS` validators,
convert each, and resize to exactly `NUM_BLOCK_PRODUCER_SEATS` seats with
the default placeholder; `None` yields all placeholder seats. -/
def bps_to_variable (nextBps : Option (List ValidatorStake)) :
    List ValidatorStakeValue :=
  match nextBps with
  | some l =>
    resizeList ((l.take NUM_BLOCK_PRODUCER_SEATS).map validatorStakeToValue)
      NUM_BLOCK_PRODUCER_SEATS defaultValidator
  | none => List.replicate NUM_BLOCK_PRODUCER_SEATS defaultValidator

/-- A chain-observed approval signature (`near_crypto::Signature`): ed25519
with its 32-byte `R` and 32-byte scalar, or another scheme (secp256k1)
carrying its raw bytes. -/
inductive RustSignature where
  | ed25519 (rBytes : List Nat) (sBytes : List Nat)
  | secp256k1 (bytesData : List Nat)
deriving DecidableEq

/-- `U256::from_little_endian`. -/
def u256FromLe (l : List Nat) : Nat :=
  l.foldr (fun b acc => b + 256 * acc) 0

/-- The in-circuit signature value (`EDDSASignatureVariableValue`): the
compressed point `r` and the scalar `s`. -/
structure EDDSASignatureValue where
  r : List Nat
  s : Nat
deriving DecidableEq

/-- `Default for SignatureVariableValue`: zeroed point, zero scalar. -/
def defaultEDDSASignature : EDDSASignatureValue where
  r := List.replicate 32 0
  s := 0

/-- `From<Option<Box<Signature>>> for SignatureVariableValue`: ed25519
signatures are converted; any other scheme and `None` both fall back to the
default value ("silently ignores invalid signatures (ECDSA)"). -/
def signatureValueFrom : Option RustSignature → EDDSASignatureValue
  | some (.ed25519 rBytes sBytes) => ⟨rBytes, u256FromLe sBytes⟩
  | some (.secp256k1 _) => defaultEDDSASignature
  | none => defaultEDDSASignature

/-- `From<Vec<Option<Box<Signature>>>> for BpsApprovalsValue`: resize to the
seat capacity with `None`, then map each slot to its signature value and an
`is_active` flag (`s.is_some()`); the result is the `(signatures, is_active)`
pair produced by the Rust `unzip`. -/
def bpsApprovalsFrom (amt : Nat) (approvals : List (Option RustSignature)) :
    List EDDSASignatureValue × List Bool :=
  ((resizeList approvals amt none).map
    fun s => (signatureValueFrom s, s.isSome)).unzip

/-- Modelled from the spec: the stake-weighted finality checker (spec §4.4)
lives in circuit code outside `src/`.  A seat contributes its stake to the
approved total exactly when it is flagged active and its ed25519 signature
verifies over the endorsement message; otherwise it contributes zero.
`verify` abstracts ed25519 verification. -/
def seatApprovedStake (verify : List Nat → List Nat → EDDSASignatureValue → Bool)
    (msg pubkey : List Nat) (stake : Nat) (active : Bool)
    (sig : EDDSASignatureValue) : Nat :=
  if active && verify pubkey msg sig then stake else 0

/-- The `HashBpsInputs` hint: drop every seat whose account id equals the
default placeholder's account id, convert the survivors to validator-stake
views in order (aborting if any account id fails to parse), and borsh-hash
the resulting list.  `hashBorsh` abstracts `CryptoHash::hash_borsh`. -/
def hashBpsInputs (hashBorsh : List ValidatorStake → List Nat)
    (bps : List ValidatorStakeValue) : Option (List Nat) :=
  (collectSome
    ((bps.filter fun x =>
        decide (x.account_id ≠ defaultValidator.account_id)).map
      toValidatorStakeView)).map hashBorsh

/-- Split a byte string into `k` consecutive shards of `s` bytes each. -/
def chunksOf (s : Nat) : Nat → List Nat → List (List Nat)
  | 0, _ => []
  | k + 1, l => l.take s :: chunksOf s k (l.drop s)

/-- Modelled from the spec: the number of data shards of the systematic
Reed-Solomon code for `n` total shards.  The code itself lives in the
external `reed_solomon_novelpoly` crate — `src/erasure.rs` only calls it —
and the spec fixes only that the data/parity split is implied by the shard
count, with roughly a third of the shards carrying data.  The proofs below
depend only on `1 ≤ rsDataShards n`. -/
def rsDataShards (n : Nat) : Nat := max 1 (n / 3)

/-- Shard size for a payload of `len` bytes over `k` data shards: the
ceiling of `len / k`, so the payload padded to a block boundary fits. -/
def rsShardLen (k len : Nat) : Nat := (len + k - 1) / k

/-- Modelled from the spec: `Erasure::encodify` delegates to the external
`reed_solomon_novelpoly::encode`.  Per spec §4.6 the code is a systematic
erasure code: the payload, padded to a block boundary, is split into the
data shards, and parity shards (abstracted by `parity`) are appended. -/
def erasureEncode (parity : List (List Nat) → List (List Nat)) (n : Nat)
    (data : List Nat) : List (List Nat) :=
  let k := rsDataShards n
  let s := rsShardLen k data.length
  let padded := data ++ List.replicate (k * s - data.length) 0
  chunksOf s k padded ++ parity (chunksOf s k padded)

/-- Modelled from the spec: `Erasure::recover` delegates to the external
`reed_solomon_novelpoly::reconstruct`.  Per spec §4.6 reconstruction fails
with a decode error when fewer shards are present than the recovery
threshold, and otherwise returns the payload (padded to a block boundary).
When all data shards of the systematic code are present they are read back
directly; recovery from parity shards is abstracted by `recoverFn`. -/
def erasureReconstruct (recoverFn : List (Option (List Nat)) → List Nat)
    (n : Nat) (shards : List (Option (List Nat))) : Except Unit (List Nat) :=
  let k := rsDataShards n
  if shards.countP (fun s => s.isSome) < k then .error ()
  else
    match collectSome (shards.take k) with
    | some ds => .ok ds.flatten
    | none => .ok (recoverFn shards)

theorem u64LeBytes_length (n : Nat) : (u64LeBytes n).length = 8 := by
  simp [u64LeBytes]

theorem encodeInner_length_of_wf (i : HeaderInner) (h : WfInner i) :
    (encodeInner i).length = 208 := by
  obtain ⟨h1, h2, h3, h4, h5, h6⟩ := h
  simp [encodeInner, u64LeBytes_length, h1, h2, h3, h4, h5, h6]

theorem resizeList_length (l : List α) (n : Nat) (d : α) :
    (resizeList l n d).length = n := by
  simp [resizeList]
  omega

/-- C1: the canonical header hash is the three-level chain
`H(H(H(encodeInner(inner)) ++ inner_rest_hash) ++ prev_block_hash)`, and the
inner encoding fed to the first hash is exactly 208 bytes. -/
theorem header_hash_three_level_chain (H : List Nat → List Nat) (h : Header)
    (hwf : WfInner h.inner_lite) :
    headerHash H h =
      H (H (H (encodeInner h.inner_lite) ++ h.inner_rest_hash) ++
        h.prev_block_hash) ∧
    (encodeInner h.inner_lite).length = 208 :=
  ⟨rfl, encodeInner_length_of_wf _ hwf⟩

theorem header_hash_three_level_chain_witness :
    WfInner ⟨7, List.replicate 32 1, List.replicate 32 2, List.replicate 32 3,
      List.replicate 32 4, 9, List.replicate 32 5, List.replicate 32 6⟩ ∧
    (headerHash (fun l => l)
        ⟨List.replicate 32 8, List.replicate 32 9,
          ⟨7, List.replicate 32 1, List.replicate 32 2, List.replicate 32 3,
            List.replicate 32 4, 9, List.replicate 32 5,
            List.replicate 32 6⟩⟩ =
      (fun l => l)
        ((fun l => l)
          ((fun l => l)
            (encodeInner
              ⟨7, List.replicate 32 1, List.replicate 32 2,
                List.replicate 32 3, List.replicate 32 4, 9,
                List.replicate 32 5, List.replicate 32 6⟩) ++
            List.replicate 32 9) ++ List.replicate 32 8) ∧
      (encodeInner
        ⟨7, List.replicate 32 1, List.replicate 32 2, List.replicate 32 3,
          List.replicate 32 4, 9, List.replicate 32 5,
          List.replicate 32 6⟩).length = 208) :=
  ⟨by decide, header_hash_three_level_chain (fun l => l) _ (by decide)⟩

/-- C3: the canonical inner encoding is exactly 208 bytes: the
concatenation of height (8 bytes little-endian), epoch_id, next_epoch_id,
prev_state_root, outcome_root (32 bytes each), timestamp (8 bytes
little-endian), next_bp_hash and block_merkle_root (32 bytes each), in that
fixed order. -/
theorem encode_inner_canonical_208 (i : HeaderInner) (hwf : WfInner i) :
    (encodeInner i).length = 208 ∧
    encodeInner i =
      u64LeBytes i.height ++ i.epoch_id ++ i.next_epoch_id ++
        i.prev_state_root ++ i.outcome_root ++ u64LeBytes i.timestamp ++
        i.next_bp_hash ++ i.block_merkle_root :=
  ⟨encodeInner_length_of_wf _ hwf, rfl⟩

theorem encode_inner_canonical_208_witness :
    WfInner ⟨3, List.replicate 32 10, List.replicate 32 11,
      List.replicate 32 12, List.replicate 32 13, 4, List.replicate 32 14,
      List.replicate 32 15⟩ ∧
    ((encodeInner
        ⟨3, List.replicate 32 10, List.replicate 32 11, List.replicate 32 12,
          List.replicate 32 13, 4, List.replicate 32 14,
          List.replicate 32 15⟩).length = 208 ∧
      encodeInner
          ⟨3, List.replicate 32 10, List.replicate 32 11,
            List.replicate 32 12, List.replicate 32 13, 4,
            List.replicate 32 14, List.replicate 32 15⟩ =
        u64LeBytes 3 ++ List.replicate 32 10 ++ List.replicate 32 11 ++
          List.replicate 32 12 ++ List.replicate 32 13 ++ u64LeBytes 4 ++
          List.replicate 32 14 ++ List.replicate 32 15) :=
  ⟨by decide, encode_inner_canonical_208 _ (by decide)⟩

/-- C4: the approval/endorsement message is exactly 41 bytes: the single
byte 0, the 32-byte next block hash, then `next_block_height + 2` as 8
little-endian bytes. -/
theorem endorsement_message_layout (nextBlockHash : List Nat)
    (nextBlockHeight : Nat) (hlen : nextBlockHash.length = 32)
    (hrange : nextBlockHeight + 2 < 2 ^ 64) :
    (buildEndorsement nextBlockHash nextBlockHeight).length = 41 ∧
    buildEndorsement nextBlockHash nextBlockHeight =
      [0] ++ nextBlockHash ++ u64LeBytes (nextBlockHeight + 2) := by
  refine ⟨?_, rfl⟩
  simp [buildEndorsement, hlen, u64LeBytes_length]

theorem endorsement_message_layout_witness :
    (List.replicate 32 7).length = 32 ∧ 100 + 2 < 2 ^ 64 ∧
    ((buildEndorsement (List.replicate 32 7) 100).length = 41 ∧
      buildEndorsement (List.replicate 32 7) 100 =
        [0] ++ List.replicate 32 7 ++ u64LeBytes (100 + 2)) :=
  ⟨by decide, by decide,
    endorsement_message_layout (List.replicate 32 7) 100 (by decide)
      (by decide)⟩

/-- C10: constructing a `HeaderInner` from a chain-observed view takes the
timestamp from the view's `timestamp` field when it is positive and from
`timestamp_nanosec` otherwise, and copies every other field unchanged. -/
theorem header_inner_from_view_fields (v : BlockHeaderInnerLiteView) :
    (headerInnerFromView v).timestamp =
      (if v.timestamp > 0 then v.timestamp else v.timestamp_nanosec) ∧
    (headerInnerFromView v).height = v.height ∧
    (headerInnerFromView v).epoch_id = v.epoch_id ∧
    (headerInnerFromView v).next_epoch_id = v.next_epoch_id ∧
    (headerInnerFromView v).prev_state_root = v.prev_state_root ∧
    (headerInnerFromView v).outcome_root = v.outcome_root ∧
    (headerInnerFromView v).next_bp_hash = v.next_bp_hash ∧
    (headerInnerFromView v).block_merkle_root = v.block_merkle_root :=
  ⟨rfl, rfl, rfl, rfl, rfl, rfl, rfl, rfl⟩

theorem bpsApprovalsFrom_fst (amt : Nat)
    (approvals : List (Option RustSignature)) :
    (bpsApprovalsFrom amt approvals).1 =
      (resizeList approvals amt none).map fun s => signatureValueFrom s := by
  simp [bpsApprovalsFrom, List.unzip_fst, Function.comp]

theorem bpsApprovalsFrom_snd (amt : Nat)
    (approvals : List (Option RustSignature)) :
    (bpsApprovalsFrom amt approvals).2 =
      (resizeList approvals amt none).map fun s => s.isSome := by
  simp [bpsApprovalsFrom, List.unzip_snd, Function.comp]

/-- C2: a seat of the approval record holding a signature of any scheme
other than ed25519 converts (totally, without aborting) to the all-zero
default signature value, and — under the spec's finality rule, with any
ed25519 verifier that rejects the default signature — contributes zero to
the approved stake whatever its active flag is. -/
theorem approvals_non_ed25519_inactive
    (approvals : List (Option RustSignature)) (i : Nat) (d : List Nat)
    (hi : (resizeList approvals NUM_BLOCK_PRODUCER_SEATS none)[i]? =
      some (some (.secp256k1 d)))
    (verify : List Nat → List Nat → EDDSASignatureValue → Bool)
    (msg pubkey : List Nat) (stake : Nat)
    (hv : ∀ k m, verify k m defaultEDDSASignature = false) :
    (bpsApprovalsFrom NUM_BLOCK_PRODUCER_SEATS approvals).1[i]? =
      some defaultEDDSASignature ∧
    ∀ active : Bool,
      seatApprovedStake verify msg pubkey stake active
        defaultEDDSASignature = 0 := by
  constructor
  · rw [bpsApprovalsFrom_fst, List.getElem?_map, hi]
    rfl
  · intro active
    cases active <;> simp [seatApprovedStake, hv]

theorem approvals_non_ed25519_inactive_witness :
    (resizeList [some (RustSignature.secp256k1 [7])]
        NUM_BLOCK_PRODUCER_SEATS none)[0]? =
      some (some (RustSignature.secp256k1 [7])) ∧
    ((bpsApprovalsFrom NUM_BLOCK_PRODUCER_SEATS
        [some (RustSignature.secp256k1 [7])]).1[0]? =
      some defaultEDDSASignature ∧
    ∀ active : Bool,
      seatApprovedStake (fun _ _ _ => false) [] [] 5 active
        defaultEDDSASignature = 0) :=
  ⟨by decide,
    approvals_non_ed25519_inactive [some (RustSignature.secp256k1 [7])] 0 [7]
      (by decide) (fun _ _ _ => false) [] [] 5 (fun _ _ => rfl)⟩

/-- C8: whatever the observed block carries (including nothing), the
constructed seat array and both approval sequences have length exactly the
fixed seat capacity — longer inputs truncated, shorter ones padded. -/
theorem bps_and_approvals_fixed_capacity
    (nextBps : Option (List ValidatorStake))
    (approvals : List (Option RustSignature)) :
    (bps_to_variable nextBps).length = NUM_BLOCK_PRODUCER_SEATS ∧
    (bpsApprovalsFrom NUM_BLOCK_PRODUCER_SEATS approvals).1.length =
      NUM_BLOCK_PRODUCER_SEATS ∧
    (bpsApprovalsFrom NUM_BLOCK_PRODUCER_SEATS approvals).2.length =
      NUM_BLOCK_PRODUCER_SEATS := by
  refine ⟨?_, ?_, ?_⟩
  · cases nextBps <;> simp [bps_to_variable, resizeList_length]
  · rw [bpsApprovalsFrom_fst]
    simp [resizeList_length]
  · rw [bpsApprovalsFrom_snd]
    simp [resizeList_length]

theorem allowed_ne_sep (b : Nat) (h : isAllowedAccountByte b = true) :
    b ≠ ACCOUNT_DATA_SEPARATOR := by
  simp [isAllowedAccountByte] at h
  simp [ACCOUNT_DATA_SEPARATOR]
  omega

theorem allowed_lt_128 (b : Nat) (h : isAllowedAccountByte b = true) :
    b < 128 := by
  simp [isAllowedAccountByte] at h
  omega

theorem takeWhile_append_of_all (p : α → Bool) (l l2 : List α)
    (h : ∀ x ∈ l, p x = true) :
    (l ++ l2).takeWhile p = l ++ l2.takeWhile p := by
  induction l with
  | nil => simp
  | cons a t ih =>
    have ha : p a = true := h a (by simp)
    simp [List.takeWhile, ha]
    exact ih fun x hx => h x (by simp [hx])

theorem takeWhile_replicate_sep (n : Nat) :
    (List.replicate n ACCOUNT_DATA_SEPARATOR).takeWhile
      (fun b => decide (b ≠ ACCOUNT_DATA_SEPARATOR)) = [] := by
  cases n <;> simp [List.replicate, List.takeWhile]

theorem validUtf8_of_ascii (l : List Nat) (h : ∀ b ∈ l, b < 128) :
    validUtf8 l = true := by
  unfold validUtf8
  induction l with
  | nil => rfl
  | cons b t ih =>
    have hb : b ≤ 127 := by
      have := h b (by simp)
      omega
    rw [validUtf8From]
    have hs : utf8Start b = some ⟨0, 0, 0⟩ := by
      rw [utf8Start, if_pos hb]
    rw [hs]
    exact ih fun x hx => h x (by simp [hx])

theorem unpad_pad_eq_of_legal (accountId : List Nat)
    (h : isLegalAccountId accountId = true) :
    unpadAccountBytes (pad_account_bytes accountId) = accountId := by
  have hparts := h
  simp [isLegalAccountId, List.all_eq_true] at hparts
  obtain ⟨⟨hne, hlen⟩, hall⟩ := hparts
  have htake : accountId.take ACCOUNT_ID_MAX_LEN = accountId :=
    List.take_of_length_le hlen
  rw [pad_account_bytes, resizeList, htake, unpadAccountBytes,
    takeWhile_append_of_all]
  · rw [takeWhile_replicate_sep, List.append_nil]
  · intro x hx
    exact decide_eq_true (allowed_ne_sep x (hall x hx))

/-- C6: padding a legal account identifier (length at most the fixed
maximum) to the fixed width with the reserved separator byte and then
unpadding — truncating at the first separator byte and parsing — returns
the original identifier exactly. -/
theorem account_id_pad_unpad_roundtrip (accountId : List Nat)
    (h : isLegalAccountId accountId = true) :
    normalise_account_id (pad_account_bytes accountId) =
      DecodeOutcome.ok accountId := by
  have hunpad := unpad_pad_eq_of_legal accountId h
  have hall : ∀ b ∈ accountId, isAllowedAccountByte b = true := by
    have hparts := h
    simp [isLegalAccountId, List.all_eq_true] at hparts
    exact hparts.2
  have hutf : validUtf8 accountId = true :=
    validUtf8_of_ascii accountId fun b hb => allowed_lt_128 b (hall b hb)
  rw [normalise_account_id, hunpad, if_pos hutf, if_pos h]

theorem account_id_pad_unpad_roundtrip_witness :
    isLegalAccountId [97, 98, 46, 99] = true ∧
    normalise_account_id (pad_account_bytes [97, 98, 46, 99]) =
      DecodeOutcome.ok [97, 98, 46, 99] :=
  ⟨by decide, account_id_pad_unpad_roundtrip [97, 98, 46, 99] (by decide)⟩

/-- C7 counterexample: on the concrete 64-byte buffer of NUL bytes the
truncated content is well-formed text but no legal identifier, and decoding
aborts (`DecodeOutcome.panicked`, the model of the Rust `expect` calls) —
it does not produce an error result, refuting the claim as stated. -/
theorem normalise_invalid_is_panic_cex :
    normalise_account_id (List.replicate ACCOUNT_ID_MAX_LEN 0) =
      DecodeOutcome.panicked := by decide

/-- C7 (amended): decoding truncates at the first separator byte and, when
the remaining bytes are not valid text or do not parse as a legal
identifier, panics via `expect` (a process abort), not an error result. -/
theorem normalise_invalid_panics (buf : List Nat)
    (h : ¬(validUtf8 (unpadAccountBytes buf) = true ∧
      isLegalAccountId (unpadAccountBytes buf) = true)) :
    normalise_account_id buf = DecodeOutcome.panicked := by
  cases hv : validUtf8 (unpadAccountBytes buf) <;>
    cases hl : isLegalAccountId (unpadAccountBytes buf) <;>
      simp [normalise_account_id, hv, hl] <;> exact h ⟨hv, hl⟩

theorem default_account_iff (v : ValidatorStakeValue)
    (h : v.account_id = defaultValidator.account_id → v = defaultValidator) :
    (v.account_id ≠ defaultValidator.account_id) ↔ (v ≠ defaultValidator) := by
  constructor
  · intro hne heq
    exact hne (by rw [heq])
  · intro hne hacc
    exact hne (h hacc)

/-- C5: the canonical BPS-set identity hash is the borsh hash (abstracted
by `hashBorsh`) of the logically trimmed seat list — placeholder seats
excluded, real seats kept — converted to validator-stake views; and the
trimmed list is a sublist of the seat array, so order is preserved.  The
hypothesis says placeholder-account seats are full placeholders, which
holds for every array built by `bps_to_variable`. -/
theorem hash_bps_trimmed (hashBorsh : List ValidatorStake → List Nat)
    (bps : List ValidatorStakeValue)
    (hph : ∀ v ∈ bps,
      v.account_id = defaultValidator.account_id → v = defaultValidator) :
    hashBpsInputs hashBorsh bps =
      (collectSome
        ((bps.filter fun v => decide (v ≠ defaultValidator)).map
          toValidatorStakeView)).map hashBorsh ∧
    (bps.filter fun v => decide (v ≠ defaultValidator)).Sublist bps := by
  constructor
  · unfold hashBpsInputs
    have hfilter :
        (bps.filter fun x =>
          decide (x.account_id ≠ defaultValidator.account_id)) =
          bps.filter fun v => decide (v ≠ defaultValidator) := by
      apply List.filter_congr
      intro v hv
      exact decide_eq_decide.mpr (default_account_iff v (hph v hv))
    rw [hfilter]
  · exact List.filter_sublist bps

theorem hash_bps_trimmed_witness :
    (∀ v ∈ [defaultValidator,
        validatorStakeToValue ⟨[97, 98], List.replicate 32 3, 12⟩],
      v.account_id = defaultValidator.account_id → v = defaultValidator) ∧
    (hashBpsInputs (fun _ => [1])
        [defaultValidator,
          validatorStakeToValue ⟨[97, 98], List.replicate 32 3, 12⟩] =
      (collectSome
        (([defaultValidator,
            validatorStakeToValue ⟨[97, 98], List.replicate 32 3, 12⟩].filter
              fun v => decide (v ≠ defaultValidator)).map
          toValidatorStakeView)).map (fun _ => [1]) ∧
    ([defaultValidator,
        validatorStakeToValue ⟨[97, 98], List.replicate 32 3, 12⟩].filter
          fun v => decide (v ≠ defaultValidator)).Sublist
      [defaultValidator,
        validatorStakeToValue ⟨[97, 98], List.replicate 32 3, 12⟩]) :=
  ⟨by decide, hash_bps_trimmed (fun _ => [1]) _ (by decide)⟩

theorem chunksOf_length (s k : Nat) (l : List Nat) :
    (chunksOf s k l).length = k := by
  induction k generalizing l with
  | zero => rfl
  | succ m ih => simp [chunksOf, ih]

theorem chunksOf_flatten (s k : Nat) (l : List Nat) :
    (chunksOf s k l).flatten = l.take (k * s) := by
  induction k generalizing l with
  | zero => simp [chunksOf]
  | succ m ih =>
    rw [chunksOf, List.flatten_cons, ih]
    have hmul : (m + 1) * s = s + m * s := by ring
    rw [hmul, List.take_add]

theorem collectSome_map_some (l : List α) :
    collectSome (l.map some) = some l := by
  induction l with
  | nil => rfl
  | cons a t ih => simp [collectSome, ih]

theorem countP_isSome_map_some (l : List (List Nat)) :
    (l.map some).countP (fun s => s.isSome) = l.length := by
  induction l with
  | nil => rfl
  | cons a t ih => simp [List.countP_cons, ih]

theorem le_mul_ceil (k len : Nat) (hk : 1 ≤ k) : len ≤ k * rsShardLen k len := by
  unfold rsShardLen
  have h := Nat.div_add_mod (len + k - 1) k
  have hm : (len + k - 1) % k < k := Nat.mod_lt _ (by omega)
  generalize hx : k * ((len + k - 1) / k) = x at h ⊢
  omega

theorem erasureReconstruct_all_present
    (recoverFn : List (Option (List Nat)) → List Nat) (n : Nat)
    (shards : List (List Nat)) (h : rsDataShards n ≤ shards.length) :
    erasureReconstruct recoverFn n (shards.map some) =
      .ok ((shards.take (rsDataShards n)).flatten) := by
  have hc : (shards.map some).countP (fun s => s.isSome) = shards.length :=
    countP_isSome_map_some shards
  have hnot :
      ¬ ((shards.map some).countP (fun s => s.isSome) < rsDataShards n) := by
    rw [hc]
    omega
  have htake : (shards.map some).take (rsDataShards n) =
      (shards.take (rsDataShards n)).map some :=
    (List.map_take some shards (rsDataShards n)).symm
  simp only [erasureReconstruct]
  rw [if_neg hnot, htake, collectSome_map_some]

/-- C9: encoding any payload into shards and reconstructing with zero
missing shards succeeds and returns a byte sequence (the payload padded to
a block boundary) whose prefix is the original payload. -/
theorem erasure_roundtrip_prefix_ok
    (parity : List (List Nat) → List (List Nat))
    (recoverFn : List (Option (List Nat)) → List Nat) (n : Nat)
    (data : List Nat) :
    ∃ padTail,
      erasureReconstruct recoverFn n ((erasureEncode parity n data).map some) =
        .ok (data ++ padTail) := by
  have hk1 : 1 ≤ rsDataShards n := le_max_left 1 (n / 3)
  have hle : data.length ≤ rsDataShards n * rsShardLen (rsDataShards n) data.length :=
    le_mul_ceil (rsDataShards n) data.length hk1
  refine ⟨List.replicate
    (rsDataShards n * rsShardLen (rsDataShards n) data.length - data.length) 0,
    ?_⟩
  have hencode : erasureEncode parity n data =
      chunksOf (rsShardLen (rsDataShards n) data.length) (rsDataShards n)
        (data ++ List.replicate
          (rsDataShards n * rsShardLen (rsDataShards n) data.length -
            data.length) 0) ++
      parity
        (chunksOf (rsShardLen (rsDataShards n) data.length) (rsDataShards n)
          (data ++ List.replicate
            (rsDataShards n * rsShardLen (rsDataShards n) data.length -
              data.length) 0)) := rfl
  rw [hencode]
  have hdlen :
      (chunksOf (rsShardLen (rsDataShards n) data.length) (rsDataShards n)
        (data ++ List.replicate
          (rsDataShards n * rsShardLen (rsDataShards n) data.length -
            data.length) 0)).length = rsDataShards n :=
    chunksOf_length _ _ _
  rw [erasureReconstruct_all_present recoverFn n _ (by simp [hdlen])]
  congr 1
  rw [List.take_left' hdlen, chunksOf_flatten]
  have hplen : (data ++ List.replicate
      (rsDataShards n * rsShardLen (rsDataShards n) data.length -
        data.length) 0).length =
      rsDataShards n * rsShardLen (rsDataShards n) data.length := by
    simp
    omega
  exact List.take_of_length_le (le_of_eq hplen)

theorem normalise_invalid_panics_witness :
    ¬(validUtf8 (unpadAccountBytes (List.replicate 64 255)) = true ∧
      isLegalAccountId (unpadAccountBytes (List.replicate 64 255)) = true) ∧
    normalise_account_id (List.replicate 64 255) =
      DecodeOutcome.panicked :=
  ⟨by decide, normalise_invalid_panics (List.replicate 64 255) (by decide)⟩

end NearLC
